import Mathlib

/-!
Shallow embedding of `add-GTFS-to-a-network-dataset/scripts/CreateTimeLapsePolygons.py`.

The script validates a time window (start/end day and clock time), builds a
list of instants stepped by an increment, and for each instant invokes the
external Service Area solver, tags the result with the instant, and
accumulates everything into one output feature class.

Modelling choices:
* An instant (`datetime.datetime` with minute precision) is an `Int`, the
  number of minutes since the epoch 1970-01-01 00:00.  Python `datetime`
  comparison, equality and `timedelta(minutes=k)` addition correspond exactly
  to `Int` comparison, equality and addition under this encoding.
* A calendar day is its day number (days since 1970-01-01), computed from a
  civil date by the standard proleptic-Gregorian conversion `daysFromCivil`
  (the calendar `datetime.datetime` implements).
* `strptime` failures and other uncaught Python exceptions, as well as the
  `arcpy.AddError` + `raise CustomError` paths, all abort the script before
  the time list is built; both are modelled as `Except.error` values of
  `ScriptError`.
* The `while t <= end_time` loop is embedded twice: `loopIter` is the
  fuel-indexed small-step execution of the loop exactly as written (returning
  `none` when the loop has not exited within the given number of iterations,
  which lets us reason about nontermination), and `timelist` is the recursive
  pure function the loop computes when the increment is positive; the two are
  proved to agree (`loopIter_timelist`).
* The solve loop's observable `arcpy` effects (Solve calls, CalculateField
  calls, CopyFeatures/Append on the output feature class) are recorded in a
  `SolveState`; the polygon set produced by a solve at instant `t` is an
  abstract `solver t`.
-/

namespace CreateTimeLapsePolygons

/-- Whether a proleptic-Gregorian year is a leap year (`calendar.isleap`). -/
def isLeap (y : Int) : Bool :=
  y % 4 = 0 && (y % 100 ≠ 0 || y % 400 = 0)

/-- Number of days in a month of the proleptic Gregorian calendar. -/
def daysInMonth (y m : Int) : Int :=
  if m = 2 then (if isLeap y then 29 else 28)
  else if m = 4 ∨ m = 6 ∨ m = 9 ∨ m = 11 then 30
  else 31

/-- Day number (days since 1970-01-01) of a civil date, the standard
conversion used by proleptic-Gregorian date libraries such as Python's
`datetime`. -/
def daysFromCivil (y m d : Int) : Int :=
  let y2 := if m ≤ 2 then y - 1 else y
  let era := (if 0 ≤ y2 then y2 else y2 - 399) / 400
  let yoe := y2 - era * 400
  let mp := if 2 < m then m - 3 else m + 9
  let doy := (153 * mp + 2) / 5 + d - 1
  let doe := yoe * 365 + yoe / 4 - yoe / 100 + doy
  era * 146097 + doe - 719468

/-- Minutes in a day. -/
def minutesPerDay : Int := 1440

/-- The instant (minutes since epoch) of day number `day` at clock time
`h:min`; embeds `datetime.datetime(day.year, day.month, day.day, h, min)`. -/
def instantOf (day h min : Int) : Int :=
  day * minutesPerDay + h * 60 + min

/-- The script's `days` dictionary: the 7 generic weekday names map to the
special ArcMap dates 1899-12-31 (Sunday) through 1900-01-06 (Saturday);
any other string is not a generic weekday (`None`). -/
def days (s : String) : Option Int :=
  if s = "Monday" then some (daysFromCivil 1900 1 1)
  else if s = "Tuesday" then some (daysFromCivil 1900 1 2)
  else if s = "Wednesday" then some (daysFromCivil 1900 1 3)
  else if s = "Thursday" then some (daysFromCivil 1900 1 4)
  else if s = "Friday" then some (daysFromCivil 1900 1 5)
  else if s = "Saturday" then some (daysFromCivil 1900 1 6)
  else if s = "Sunday" then some (daysFromCivil 1899 12 31)
  else none

/-- Value of a nonempty run of decimal digit characters, `none` when the run
is empty or contains a non-digit. -/
def parseNat (cs : List Char) : Option Nat :=
  if cs ≠ [] ∧ cs.all (·.isDigit) then
    some (cs.foldl (fun n c => 10 * n + (c.toNat - 48)) 0)
  else none

/-- Split a character list at the colons, the field separators of the
`%H:%M` format. -/
def splitColon (cs : List Char) : List (List Char) :=
  match cs with
  | [] => [[]]
  | c :: rest =>
    if c = ':' then [] :: splitColon rest
    else
      match splitColon rest with
      | g :: gs => (c :: g) :: gs
      | [] => [[c]]

/-- Embeds `datetime.datetime.strptime(s, "%Y%m%d")` on the canonical 8-digit
form: 4-digit year, 2-digit month, 2-digit day, each in range (`strptime`
raises `ValueError` otherwise, modelled by `none`). -/
def strptimeYmd (s : String) : Option Int :=
  let cs := s.toList
  if cs.length = 8 then
    match parseNat (cs.take 4), parseNat ((cs.drop 4).take 2), parseNat (cs.drop 6) with
    | some y, some m, some d =>
        if 1 ≤ y ∧ 1 ≤ m ∧ m ≤ 12 ∧ 1 ≤ d ∧ (d : Int) ≤ daysInMonth y m then
          some (daysFromCivil y m d)
        else none
    | _, _, _ => none
  else none

/-- Embeds `datetime.datetime.strptime(s, "%H:%M")`: hour and minute fields
separated by a colon, one or two digits each, hour below 24 and minute
below 60 (`strptime` raises `ValueError` otherwise, modelled by `none`). -/
def strptimeHM (s : String) : Option (Int × Int) :=
  match splitColon s.toList with
  | [hs, ms] =>
    match parseNat hs, parseNat ms with
    | some h, some m =>
        if hs.length ≤ 2 ∧ ms.length ≤ 2 ∧ h ≤ 23 ∧ m ≤ 59 then
          some ((h : Int), (m : Int))
        else none
    | _, _ => none
  | _ => none

/-- The terminal failures of the script.  The four `mismatched`/`before`
constructors are the `arcpy.AddError` + `raise CustomError` paths of the
validation code; `invalidDateOrTime` is an uncaught `strptime` `ValueError`.
Either way the script stops before building the time list. -/
inductive ScriptError where
  | invalidDateOrTime
  | endGenericStartSpecific
  | differentGenericWeekdays
  | endSpecificStartGeneric
  | startEqualsEnd
  | endBeforeStart
deriving DecidableEq, Repr

/-- The `end_day` selection code: a generic end day is rejected when the
start was a specific date (`generic_weekday` false) and when it differs from
the generic start day; a non-generic end day is rejected when the start was
generic, and otherwise parsed as a specific date. -/
def selectEndDay (genericWeekday : Bool) (startDay : Int) (edi : String) :
    Except ScriptError Int :=
  match days edi with
  | some endDayGeneric =>
    if !genericWeekday then .error .endGenericStartSpecific
    else if startDay ≠ endDayGeneric then .error .differentGenericWeekdays
    else .ok endDayGeneric
  | none =>
    if genericWeekday then .error .endSpecificStartGeneric
    else
      match strptimeYmd edi with
      | some endDaySpecific => .ok endDaySpecific
      | none => .error .invalidDateOrTime

/-- Continuation of input processing after `start_day` is known
(`genericWeekday` is the script's `generic_weekday` flag): parse the start
clock time, select the end day, parse the end clock time, and compose the
`(start_time, end_time)` instants. -/
def composeRest (genericWeekday : Bool) (startDay : Int)
    (sti edi eti : String) : Except ScriptError (Int × Int) :=
  match strptimeHM sti with
  | none => .error .invalidDateOrTime
  | some (sh, sm) =>
    let startTime := instantOf startDay sh sm
    match selectEndDay genericWeekday startDay edi with
    | .error e => .error e
    | .ok endDay =>
      match strptimeHM eti with
      | none => .error .invalidDateOrTime
      | some (eh, em) => .ok (startTime, instantOf endDay eh em)

/-- The input-processing code from `start_day_input in days` up to the
construction of `end_time`: parses the start day (generic weekday or
specific date) and hands over to `composeRest`. -/
def composeWindow (sdi sti edi eti : String) : Except ScriptError (Int × Int) :=
  match days sdi with
  | some startDayGeneric => composeRest true startDayGeneric sti edi eti
  | none =>
    match strptimeYmd sdi with
    | some startDaySpecific => composeRest false startDaySpecific sti edi eti
    | none => .error .invalidDateOrTime

/-- The whole validation phase: `composeWindow` followed by the
`start_time == end_time` and `end_time < start_time` checks.  On success it
returns the validated window `(start_time, end_time)`. -/
def processInputs (sdi sti edi eti : String) : Except ScriptError (Int × Int) :=
  match composeWindow sdi sti edi eti with
  | .error e => .error e
  | .ok (startTime, endTime) =>
    if startTime = endTime then .error .startEqualsEnd
    else if endTime < startTime then .error .endBeforeStart
    else .ok (startTime, endTime)

/-- Fuel-indexed execution of the script's enumeration loop
`while t <= end_time: timelist.append(t); t += increment`, started at `t`
with accumulator `acc`.  Returns `some` final list when the loop exits
within `fuel` iterations, `none` otherwise; so
`∀ fuel, loopIter e inc fuel t acc = none` says the loop never terminates. -/
def loopIter (e inc : Int) : Nat → Int → List Int → Option (List Int)
  | 0, _, _ => none
  | fuel + 1, t, acc =>
    if t ≤ e then loopIter e inc fuel (t + inc) (acc ++ [t]) else some acc

/-- The list the enumeration loop computes from `t` on when the increment is
positive (for a non-positive increment the loop never exits; this function
then returns `[]`, a value the script never reaches — see
`loopIter_none_of_nonpos`). -/
def timelistFrom (e inc : Int) (t : Int) : List Int :=
  if _hpos : 0 < inc then
    if t ≤ e then t :: timelistFrom e inc (t + inc) else []
  else []
termination_by (e + inc - t).toNat
decreasing_by simp_wf; omega

/-- The script's `timelist`, built starting at the validated `start_time`. -/
def timelist (s e inc : Int) : List Int :=
  timelistFrom e inc s

/-- Which write the solve loop performed on the output feature class:
`arcpy.management.CopyFeatures` (creation) or `arcpy.management.Append`. -/
inductive WriteOp where
  | copy
  | append
deriving DecidableEq, Repr

/-- Observable `arcpy` effects of the solve loop.  `solves` and `calcs` are
the instants passed to `arcpy.na.Solve` and to the `TimeOfDay`
`CalculateField` call, in order; `output` is the content of the output
feature class (`none` while it does not exist), each polygon result set
paired with the `TimeOfDay` value stamped on it; `writes` records the
CopyFeatures/Append operations. -/
structure SolveState (α : Type) where
  solves : List Int
  calcs : List Int
  output : Option (List (Int × α))
  writes : List WriteOp
deriving Repr

/-- One iteration of the solve loop at instant `t`: set `timeOfDay`, solve,
calculate the `TimeOfDay` field to `t`, then copy the polygons to the output
feature class if it does not yet exist and append to it otherwise. -/
def solveStep {α : Type} (solver : Int → α) (st : SolveState α) (t : Int) :
    SolveState α :=
  { solves := st.solves ++ [t]
    calcs := st.calcs ++ [t]
    output := some ((st.output.getD []) ++ [(t, solver t)])
    writes := st.writes ++ [if st.output.isSome then WriteOp.append else WriteOp.copy] }

/-- The solve loop `for t in timelist: ...` run from state `st`. -/
def runSolveLoop {α : Type} (solver : Int → α) (tl : List Int)
    (st : SolveState α) : SolveState α :=
  tl.foldl (solveStep solver) st

/-- Initial solve-loop state: nothing solved, output feature class absent. -/
def initState (α : Type) : SolveState α :=
  ⟨[], [], none, []⟩

/-- Outcome of one script run: the errors reported (at most one, since every
failure aborts) and the solve-loop effects. -/
structure Outcome (α : Type) where
  errors : List ScriptError
  solves : List Int
  calcs : List Int
  output : Option (List (Int × α))
  writes : List WriteOp
deriving Repr

/-- Outcome of a run that failed validation with `e`: the error is reported,
nothing is solved, the output feature class is never touched. -/
def errorOutcome (α : Type) (e : ScriptError) : Outcome α :=
  ⟨[e], [], [], none, []⟩

/-- The whole script: validate the inputs, build the time list with the
enumeration loop, then run the solve loop on it (with the output feature
class initially absent).  `fuel` bounds the enumeration loop's iterations;
the result is `none` when the loop has not exited within `fuel` iterations,
so a run on which no fuel suffices is a run that hangs forever. -/
def runScript {α : Type} (solver : Int → α) (sdi sti edi eti : String)
    (inc : Int) (fuel : Nat) : Option (Outcome α) :=
  match processInputs sdi sti edi eti with
  | .error e => some (errorOutcome α e)
  | .ok (startTime, endTime) =>
    match loopIter endTime inc fuel startTime [] with
    | none => none
    | some tl =>
      let st := runSolveLoop solver tl (initState α)
      some ⟨[], st.solves, st.calcs, st.output, st.writes⟩

/-! ### Lemmas about the enumeration loop -/

theorem timelistFrom_of_gt (e inc t : Int) (ht : ¬ t ≤ e) :
    timelistFrom e inc t = [] := by
  rw [timelistFrom]; split <;> simp [ht]

theorem timelistFrom_cons (e inc t : Int) (h : 0 < inc) (ht : t ≤ e) :
    timelistFrom e inc t = t :: timelistFrom e inc (t + inc) := by
  rw [timelistFrom]; simp [h, ht]

theorem timelistFrom_length (e inc : Int) (h : 0 < inc) (t : Int) (ht : t ≤ e) :
    (timelistFrom e inc t).length = ((e - t) / inc).toNat + 1 := by
  induction t using timelistFrom.induct e inc with
  | case1 t hpos htle ih =>
    rw [timelistFrom_cons e inc t hpos htle]
    by_cases h2 : t + inc ≤ e
    · rw [List.length_cons, ih h2]
      have hdiv : (e - t) / inc = (e - (t + inc)) / inc + 1 := by
        have hsplit : e - t = (e - (t + inc)) + 1 * inc := by ring
        rw [hsplit, Int.add_mul_ediv_right _ _ (by omega : inc ≠ 0)]
      have hnn : 0 ≤ (e - (t + inc)) / inc := Int.ediv_nonneg (by omega) (by omega)
      omega
    · rw [timelistFrom_of_gt e inc (t + inc) h2]
      have hz : (e - t) / inc = 0 := Int.ediv_eq_zero_of_lt (by omega) (by omega)
      simp [hz]
  | case2 t hpos htgt => exact absurd ht htgt
  | case3 t hnpos => exact absurd h hnpos

theorem timelistFrom_mem_lb (e inc t : Int) (x : Int)
    (hx : x ∈ timelistFrom e inc t) : t ≤ x := by
  induction t using timelistFrom.induct e inc with
  | case1 t hpos htle ih =>
    rw [timelistFrom_cons e inc t hpos htle] at hx
    rcases List.mem_cons.1 hx with h1 | h2
    · omega
    · have := ih h2; omega
  | case2 t hpos htgt => rw [timelistFrom_of_gt e inc t htgt] at hx; cases hx
  | case3 t hnpos => rw [timelistFrom] at hx; simp [hnpos] at hx

theorem timelistFrom_mem_ub (e inc t : Int) (x : Int)
    (hx : x ∈ timelistFrom e inc t) : x ≤ e := by
  induction t using timelistFrom.induct e inc with
  | case1 t hpos htle ih =>
    rw [timelistFrom_cons e inc t hpos htle] at hx
    rcases List.mem_cons.1 hx with h1 | h2
    · omega
    · exact ih h2
  | case2 t hpos htgt => rw [timelistFrom_of_gt e inc t htgt] at hx; cases hx
  | case3 t hnpos => rw [timelistFrom] at hx; simp [hnpos] at hx

theorem timelistFrom_pairwise (e inc t : Int) :
    (timelistFrom e inc t).Pairwise (· < ·) := by
  induction t using timelistFrom.induct e inc with
  | case1 t hpos htle ih =>
    rw [timelistFrom_cons e inc t hpos htle]
    refine List.pairwise_cons.2 ⟨fun x hx => ?_, ih⟩
    have := timelistFrom_mem_lb e inc (t + inc) x hx
    omega
  | case2 t hpos htgt => rw [timelistFrom_of_gt e inc t htgt]; exact List.Pairwise.nil
  | case3 t hnpos => rw [timelistFrom]; simp [hnpos]

theorem timelistFrom_getLast (e inc : Int) (h : 0 < inc) (t : Int) (ht : t ≤ e) :
    (timelistFrom e inc t).getLast? = some (t + ((e - t) / inc) * inc) := by
  induction t using timelistFrom.induct e inc with
  | case1 t hpos htle ih =>
    rw [timelistFrom_cons e inc t hpos htle]
    by_cases h2 : t + inc ≤ e
    · rw [timelistFrom_cons e inc (t + inc) hpos h2, List.getLast?_cons_cons,
        ← timelistFrom_cons e inc (t + inc) hpos h2, ih h2]
      have hdiv : (e - t) / inc = (e - (t + inc)) / inc + 1 := by
        have hsplit : e - t = (e - (t + inc)) + 1 * inc := by ring
        rw [hsplit, Int.add_mul_ediv_right _ _ (by omega : inc ≠ 0)]
      rw [hdiv]; ring_nf
    · rw [timelistFrom_of_gt e inc (t + inc) h2]
      have hz : (e - t) / inc = 0 := Int.ediv_eq_zero_of_lt (by omega) (by omega)
      simp [hz]
  | case2 t hpos htgt => exact absurd ht htgt
  | case3 t hnpos => exact absurd h hnpos

theorem loopIter_none_of_nonpos (e inc : Int) (hinc : inc ≤ 0) :
    ∀ (fuel : Nat) (t : Int), t ≤ e → ∀ acc, loopIter e inc fuel t acc = none := by
  intro fuel
  induction fuel with
  | zero => intro t ht acc; rfl
  | succ n ih =>
    intro t ht acc
    rw [loopIter, if_pos ht]
    exact ih (t + inc) (by omega) (acc ++ [t])

theorem loopIter_timelist (e inc : Int) (h : 0 < inc) :
    ∀ (t : Int) (acc : List Int),
      loopIter e inc ((timelistFrom e inc t).length + 1) t acc =
        some (acc ++ timelistFrom e inc t) := by
  intro t
  induction t using timelistFrom.induct e inc with
  | case1 t hpos htle ih =>
    intro acc
    rw [timelistFrom_cons e inc t hpos htle, List.length_cons]
    rw [loopIter, if_pos htle, ih (acc ++ [t])]
    simp
  | case2 t hpos htgt =>
    intro acc
    rw [timelistFrom_of_gt e inc t htgt, loopIter, if_neg htgt]
    simp
  | case3 t hnpos => exact absurd h hnpos

/-! ### Lemmas about the validation phase -/

theorem processInputs_ok_lt (sdi sti edi eti : String) (s e : Int)
    (hok : processInputs sdi sti edi eti = .ok (s, e)) : s < e := by
  unfold processInputs at hok
  split at hok
  · simp at hok
  · split at hok
    · simp at hok
    · split at hok
      · simp at hok
      · injection hok with hpair
        injection hpair with hs he2
        omega

/-! ### Lemmas about the solve loop -/

theorem runSolveLoop_solves {α : Type} (solver : Int → α) (tl : List Int) :
    ∀ st : SolveState α, (runSolveLoop solver tl st).solves = st.solves ++ tl := by
  induction tl with
  | nil => intro st; simp [runSolveLoop]
  | cons t rest ih =>
    intro st
    show (runSolveLoop solver rest (solveStep solver st t)).solves = _
    rw [ih]
    simp [solveStep]

theorem runSolveLoop_calcs {α : Type} (solver : Int → α) (tl : List Int) :
    ∀ st : SolveState α, (runSolveLoop solver tl st).calcs = st.calcs ++ tl := by
  induction tl with
  | nil => intro st; simp [runSolveLoop]
  | cons t rest ih =>
    intro st
    show (runSolveLoop solver rest (solveStep solver st t)).calcs = _
    rw [ih]
    simp [solveStep]

theorem runSolveLoop_output {α : Type} (solver : Int → α) (tl : List Int)
    (hne : tl ≠ []) :
    ∀ st : SolveState α,
      (runSolveLoop solver tl st).output =
        some (st.output.getD [] ++ tl.map (fun t => (t, solver t))) := by
  induction tl with
  | nil => exact absurd rfl hne
  | cons t rest ih =>
    intro st
    show (runSolveLoop solver rest (solveStep solver st t)).output = _
    by_cases hr : rest = []
    · subst hr
      simp [runSolveLoop, solveStep]
    · rw [ih hr]
      simp [solveStep]

theorem runSolveLoop_writes_some {α : Type} (solver : Int → α) (tl : List Int) :
    ∀ st : SolveState α, st.output.isSome →
      (runSolveLoop solver tl st).writes =
        st.writes ++ List.replicate tl.length WriteOp.append := by
  induction tl with
  | nil => intro st _; simp [runSolveLoop]
  | cons t rest ih =>
    intro st hsome
    show (runSolveLoop solver rest (solveStep solver st t)).writes = _
    rw [ih (solveStep solver st t) (by simp [solveStep])]
    simp [solveStep, hsome, List.replicate_succ]

theorem runSolveLoop_writes_none {α : Type} (solver : Int → α) (t : Int)
    (rest : List Int) (st : SolveState α) (hnone : st.output = none) :
    (runSolveLoop solver (t :: rest) st).writes =
      st.writes ++ WriteOp.copy :: List.replicate rest.length WriteOp.append := by
  show (runSolveLoop solver rest (solveStep solver st t)).writes = _
  rw [runSolveLoop_writes_some solver rest (solveStep solver st t) (by simp [solveStep])]
  simp [solveStep, hnone]

/-- Propagating a validation error to the script outcome: when input
processing fails with `err`, the run reports `err`, performs no solve, no
`CalculateField`, and never creates or writes the output feature class. -/
theorem runScript_of_error {α : Type} (solver : Int → α) (sdi sti edi eti : String)
    (inc : Int) (fuel : Nat) (err : ScriptError)
    (h : processInputs sdi sti edi eti = .error err) :
    runScript solver sdi sti edi eti inc fuel = some (errorOutcome α err) := by
  simp [runScript, h]

/-! ### Claim theorems -/

/-- C1: for every validated window (start strictly before end) and every
strictly positive increment, the time list built by the enumeration loop has
length `floor((end - start) / increment) + 1`. -/
theorem claim_C1_timelist_length (s e inc : Int) (hinc : 0 < inc) (hlt : s < e) :
    (timelist s e inc).length = ((e - s) / inc).toNat + 1 :=
  timelistFrom_length e inc hinc s (le_of_lt hlt)

theorem claim_C1_witness :
    (0 : Int) < 30 ∧ (0 : Int) < 60 ∧
      (timelist 0 60 30).length = (((60 : Int) - 0) / 30).toNat + 1 :=
  ⟨by norm_num, by norm_num, claim_C1_timelist_length 0 60 30 (by norm_num) (by norm_num)⟩

/-- C2 (code bug): an increment of zero is neither rejected nor guarded.  The
window Monday 08:00 – Monday 09:00 passes every validation check, and with
increment 0 the enumeration loop `while t <= end_time` never exits: no amount
of fuel makes it terminate, so the script hangs instead of reporting an
error. -/
theorem claim_C2_zero_increment_hangs :
    processInputs "Monday" "08:00" "Monday" "09:00" = .ok (-36816000, -36815940) ∧
      ∀ fuel : Nat,
        runScript (fun t => t) "Monday" "08:00" "Monday" "09:00" 0 fuel = none := by
  refine ⟨rfl, fun fuel => ?_⟩
  have hpi : processInputs "Monday" "08:00" "Monday" "09:00" =
      .ok (-36816000, -36815940) := rfl
  have hiter : loopIter (-36815940) 0 fuel (-36816000) [] = none :=
    loopIter_none_of_nonpos (-36815940) 0 (by norm_num) fuel (-36816000) (by norm_num) []
  simp [runScript, hpi, hiter]

/-- C3 counterexample: the claim that the last element of the time list
always equals the end instant fails as soon as the increment does not divide
the window.  Monday 08:00 – Monday 08:50 with a 30-minute increment is
validated (instants −36816000 and −36815950 minutes), yet the loop produces
[08:00, 08:30] and its last element 08:30 (−36815970) is not the end
instant 08:50 (−36815950). -/
theorem claim_C3_counterexample :
    processInputs "Monday" "08:00" "Monday" "08:50" = .ok (-36816000, -36815950) ∧
      (0 : Int) < 30 ∧
      timelist (-36816000) (-36815950) 30 = [-36816000, -36815970] ∧
      (timelist (-36816000) (-36815950) 30).getLast? = some (-36815970) ∧
      (-36815970 : Int) ≠ -36815950 := by
  have htl : timelist (-36816000) (-36815950) 30 = [-36816000, -36815970] := by
    rw [timelist, timelistFrom_cons _ _ _ (by norm_num) (by norm_num),
      timelistFrom_cons _ _ _ (by norm_num) (by norm_num),
      timelistFrom_of_gt _ _ _ (by norm_num)]
    norm_num
  refine ⟨rfl, by norm_num, htl, ?_, by norm_num⟩
  rw [htl]
  rfl

/-- C3 as amended: for every validated window and strictly positive
increment, the time list starts at the start instant, and its last element is
`start + floor((end - start) / increment) * increment` — the greatest
enumerated instant, which is at most the end instant, lies within one
increment of it, and equals it exactly when the increment divides the
window. -/
theorem claim_C3_span (s e inc : Int) (hinc : 0 < inc) (hlt : s < e) :
    (timelist s e inc).head? = some s ∧
    (timelist s e inc).getLast? = some (s + ((e - s) / inc) * inc) ∧
    s + ((e - s) / inc) * inc ≤ e ∧
    e - (s + ((e - s) / inc) * inc) < inc ∧
    (inc ∣ (e - s) → (timelist s e inc).getLast? = some e) := by
  have hle : s ≤ e := le_of_lt hlt
  have hhead : (timelist s e inc).head? = some s := by
    rw [timelist, timelistFrom_cons e inc s hinc hle]
    rfl
  have hlast : (timelist s e inc).getLast? = some (s + ((e - s) / inc) * inc) :=
    timelistFrom_getLast e inc hinc s hle
  have h1 := Int.ediv_add_emod (e - s) inc
  have h2 := Int.emod_nonneg (e - s) (by omega : inc ≠ 0)
  have h3 := Int.emod_lt_of_pos (e - s) hinc
  have hcomm : inc * ((e - s) / inc) = ((e - s) / inc) * inc := mul_comm _ _
  refine ⟨hhead, hlast, by linarith, by linarith, fun hdvd => ?_⟩
  rw [hlast, Int.ediv_mul_cancel hdvd]
  congr 1
  ring

theorem claim_C3_span_witness :
    (0 : Int) < 30 ∧ (-36816000 : Int) < -36815950 ∧
      ((timelist (-36816000) (-36815950) 30).head? = some (-36816000) ∧
       (timelist (-36816000) (-36815950) 30).getLast? =
         some (-36816000 + (((-36815950) - (-36816000)) / 30) * 30) ∧
       (-36816000 : Int) + (((-36815950) - (-36816000)) / 30) * 30 ≤ -36815950 ∧
       (-36815950 : Int) - (-36816000 + (((-36815950) - (-36816000)) / 30) * 30) < 30 ∧
       ((30 : Int) ∣ ((-36815950) - (-36816000)) →
         (timelist (-36816000) (-36815950) 30).getLast? = some (-36815950))) :=
  ⟨by norm_num, by norm_num,
    claim_C3_span (-36816000) (-36815950) 30 (by norm_num) (by norm_num)⟩

/-- Enumeration of the `days` dictionary: a successful lookup is one of the
7 weekday names, and the value is the day number of its special ArcMap
date. -/
theorem days_cases (s : String) (d : Int) (h : days s = some d) :
    (s = "Monday" ∧ d = -25567) ∨ (s = "Tuesday" ∧ d = -25566) ∨
    (s = "Wednesday" ∧ d = -25565) ∨ (s = "Thursday" ∧ d = -25564) ∨
    (s = "Friday" ∧ d = -25563) ∨ (s = "Saturday" ∧ d = -25562) ∨
    (s = "Sunday" ∧ d = -25568) := by
  unfold days at h
  split_ifs at h <;>
    simp_all [show daysFromCivil 1900 1 1 = -25567 from by decide,
      show daysFromCivil 1900 1 2 = -25566 from by decide,
      show daysFromCivil 1900 1 3 = -25565 from by decide,
      show daysFromCivil 1900 1 4 = -25564 from by decide,
      show daysFromCivil 1900 1 5 = -25563 from by decide,
      show daysFromCivil 1900 1 6 = -25562 from by decide,
      show daysFromCivil 1899 12 31 = -25568 from by decide]

/-- Distinct generic weekday names denote distinct special dates: the `days`
dictionary is injective on its domain. -/
theorem days_inj (s1 s2 : String) (d1 d2 : Int)
    (h1 : days s1 = some d1) (h2 : days s2 = some d2) (hne : s1 ≠ s2) :
    d1 ≠ d2 := by
  rcases days_cases s1 d1 h1 with
    ⟨hs, hd⟩ | ⟨hs, hd⟩ | ⟨hs, hd⟩ | ⟨hs, hd⟩ | ⟨hs, hd⟩ | ⟨hs, hd⟩ | ⟨hs, hd⟩ <;>
  rcases days_cases s2 d2 h2 with
    ⟨hs2, hd2⟩ | ⟨hs2, hd2⟩ | ⟨hs2, hd2⟩ | ⟨hs2, hd2⟩ | ⟨hs2, hd2⟩ | ⟨hs2, hd2⟩ |
      ⟨hs2, hd2⟩ <;>
  subst hs <;> subst hs2 <;> first | exact absurd rfl hne | omega

/-- C4: whenever exactly one of the two day inputs is a generic weekday name
(a key of `days`) and the other is not, input processing fails with a
terminal error, the solver is never invoked, and the output feature class is
never created. -/
theorem claim_C4_mismatched_kinds (sdi sti edi eti : String)
    (h : (days sdi).isSome ≠ (days edi).isSome) :
    ∃ err, processInputs sdi sti edi eti = .error err ∧
      ∀ (α : Type) (solver : Int → α) (inc : Int) (fuel : Nat),
        runScript solver sdi sti edi eti inc fuel = some (errorOutcome α err) := by
  rcases hsd : days sdi with _ | d1
  · rcases hed : days edi with _ | d2
    · rw [hsd, hed] at h; simp at h
    · rcases hsp : strptimeYmd sdi with _ | sd
      · refine ⟨.invalidDateOrTime, ?_, ?_⟩
        · simp [processInputs, composeWindow, hsd, hsp]
        · intro α solver inc fuel
          exact runScript_of_error solver _ _ _ _ inc fuel _
            (by simp [processInputs, composeWindow, hsd, hsp])
      · rcases hst : strptimeHM sti with _ | ⟨sh, sm⟩
        · refine ⟨.invalidDateOrTime, ?_, ?_⟩
          · simp [processInputs, composeWindow, composeRest, hsd, hsp, hst]
          · intro α solver inc fuel
            exact runScript_of_error solver _ _ _ _ inc fuel _
              (by simp [processInputs, composeWindow, composeRest, hsd, hsp, hst])
        · refine ⟨.endGenericStartSpecific, ?_, ?_⟩
          · simp [processInputs, composeWindow, composeRest, selectEndDay,
              hsd, hsp, hst, hed]
          · intro α solver inc fuel
            exact runScript_of_error solver _ _ _ _ inc fuel _
              (by simp [processInputs, composeWindow, composeRest, selectEndDay,
                hsd, hsp, hst, hed])
  · rcases hed : days edi with _ | d2
    · rcases hst : strptimeHM sti with _ | ⟨sh, sm⟩
      · refine ⟨.invalidDateOrTime, ?_, ?_⟩
        · simp [processInputs, composeWindow, composeRest, hsd, hst]
        · intro α solver inc fuel
          exact runScript_of_error solver _ _ _ _ inc fuel _
            (by simp [processInputs, composeWindow, composeRest, hsd, hst])
      · refine ⟨.endSpecificStartGeneric, ?_, ?_⟩
        · simp [processInputs, composeWindow, composeRest, selectEndDay,
            hsd, hst, hed]
        · intro α solver inc fuel
          exact runScript_of_error solver _ _ _ _ inc fuel _
            (by simp [processInputs, composeWindow, composeRest, selectEndDay,
              hsd, hst, hed])
    · rw [hsd, hed] at h; simp at h

theorem claim_C4_witness :
    processInputs "Monday" "08:00" "20170101" "09:00" =
        .error .endSpecificStartGeneric ∧
      runScript (fun t => (t : Int)) "Monday" "08:00" "20170101" "09:00" 5 3 =
        some (errorOutcome Int .endSpecificStartGeneric) := by
  obtain ⟨err, h1, h2⟩ :=
    claim_C4_mismatched_kinds "Monday" "08:00" "20170101" "09:00" (by decide)
  have hcalc : processInputs "Monday" "08:00" "20170101" "09:00" =
      .error .endSpecificStartGeneric := rfl
  rw [hcalc] at h1
  injection h1 with heq
  subst heq
  exact ⟨hcalc, h2 Int (fun t => t) 5 3⟩

/-- C5: whenever both day inputs are generic weekday names but different
ones, input processing fails with a terminal error, the solver is never
invoked, and the output feature class is never created. -/
theorem claim_C5_mismatched_weekdays (sdi sti edi eti : String) (d1 d2 : Int)
    (h1 : days sdi = some d1) (h2 : days edi = some d2) (hne : sdi ≠ edi) :
    ∃ err, processInputs sdi sti edi eti = .error err ∧
      ∀ (α : Type) (solver : Int → α) (inc : Int) (fuel : Nat),
        runScript solver sdi sti edi eti inc fuel = some (errorOutcome α err) := by
  have hd : d1 ≠ d2 := days_inj sdi edi d1 d2 h1 h2 hne
  rcases hst : strptimeHM sti with _ | ⟨sh, sm⟩
  · refine ⟨.invalidDateOrTime, ?_, ?_⟩
    · simp [processInputs, composeWindow, composeRest, h1, hst]
    · intro α solver inc fuel
      exact runScript_of_error solver _ _ _ _ inc fuel _
        (by simp [processInputs, composeWindow, composeRest, h1, hst])
  · refine ⟨.differentGenericWeekdays, ?_, ?_⟩
    · simp [processInputs, composeWindow, composeRest, selectEndDay,
        h1, h2, hst, hd]
    · intro α solver inc fuel
      exact runScript_of_error solver _ _ _ _ inc fuel _
        (by simp [processInputs, composeWindow, composeRest, selectEndDay,
          h1, h2, hst, hd])

theorem claim_C5_witness :
    processInputs "Monday" "08:00" "Tuesday" "09:00" =
        .error .differentGenericWeekdays ∧
      runScript (fun t => (t : Int)) "Monday" "08:00" "Tuesday" "09:00" 5 3 =
        some (errorOutcome Int .differentGenericWeekdays) := by
  obtain ⟨err, h1, h2⟩ :=
    claim_C5_mismatched_weekdays "Monday" "08:00" "Tuesday" "09:00" _ _ rfl rfl
      (by decide)
  have hcalc : processInputs "Monday" "08:00" "Tuesday" "09:00" =
      .error .differentGenericWeekdays := rfl
  rw [hcalc] at h1
  injection h1 with heq
  subst heq
  exact ⟨hcalc, h2 Int (fun t => t) 5 3⟩

/-- C6: when the composed start instant equals the composed end instant,
validation fails with the start-equals-end error; when the composed end
instant strictly precedes the composed start instant, validation fails with
the end-before-start error; in both cases the solver is never invoked and
the output feature class is never created. -/
theorem claim_C6_degenerate_window (sdi sti edi eti : String) (s e : Int)
    (hcw : composeWindow sdi sti edi eti = .ok (s, e)) :
    (s = e →
      processInputs sdi sti edi eti = .error .startEqualsEnd ∧
      ∀ (α : Type) (solver : Int → α) (inc : Int) (fuel : Nat),
        runScript solver sdi sti edi eti inc fuel =
          some (errorOutcome α .startEqualsEnd)) ∧
    (e < s →
      processInputs sdi sti edi eti = .error .endBeforeStart ∧
      ∀ (α : Type) (solver : Int → α) (inc : Int) (fuel : Nat),
        runScript solver sdi sti edi eti inc fuel =
          some (errorOutcome α .endBeforeStart)) := by
  constructor
  · intro hse
    have hpi : processInputs sdi sti edi eti = .error .startEqualsEnd := by
      simp [processInputs, hcw, hse]
    exact ⟨hpi, fun α solver inc fuel =>
      runScript_of_error solver _ _ _ _ inc fuel _ hpi⟩
  · intro hlt
    have hns : s ≠ e := by omega
    have hpi : processInputs sdi sti edi eti = .error .endBeforeStart := by
      simp [processInputs, hcw, hns, hlt]
    exact ⟨hpi, fun α solver inc fuel =>
      runScript_of_error solver _ _ _ _ inc fuel _ hpi⟩

theorem claim_C6_witness :
    (processInputs "Monday" "08:00" "Monday" "08:00" = .error .startEqualsEnd ∧
      runScript (fun t => (t : Int)) "Monday" "08:00" "Monday" "08:00" 5 3 =
        some (errorOutcome Int .startEqualsEnd)) ∧
    (processInputs "Monday" "09:00" "Monday" "08:00" = .error .endBeforeStart ∧
      runScript (fun t => (t : Int)) "Monday" "09:00" "Monday" "08:00" 5 3 =
        some (errorOutcome Int .endBeforeStart)) := by
  have hcw1 : composeWindow "Monday" "08:00" "Monday" "08:00" =
      .ok (-36816000, -36816000) := rfl
  have hcw2 : composeWindow "Monday" "09:00" "Monday" "08:00" =
      .ok (-36815940, -36816000) := rfl
  constructor
  · obtain ⟨hpi, hrs⟩ :=
      (claim_C6_degenerate_window "Monday" "08:00" "Monday" "08:00"
        (-36816000) (-36816000) hcw1).1 rfl
    exact ⟨hpi, hrs Int (fun t => t) 5 3⟩
  · obtain ⟨hpi, hrs⟩ :=
      (claim_C6_degenerate_window "Monday" "09:00" "Monday" "08:00"
        (-36815940) (-36816000) hcw2).2 (by norm_num)
    exact ⟨hpi, hrs Int (fun t => t) 5 3⟩

/-- C7: for every validated window and strictly positive increment, the time
list is strictly increasing, hence ordered and duplicate-free. -/
theorem claim_C7_strictly_increasing (s e inc : Int) (_hinc : 0 < inc)
    (_hlt : s < e) : (timelist s e inc).Pairwise (· < ·) :=
  timelistFrom_pairwise e inc s

theorem claim_C7_witness :
    (0 : Int) < 30 ∧ (0 : Int) < 60 ∧ (timelist 0 60 30).Pairwise (· < ·) :=
  ⟨by norm_num, by norm_num,
    claim_C7_strictly_increasing 0 60 30 (by norm_num) (by norm_num)⟩

/-- C8: on every input that fails a validation check, the error is the
run's reported outcome, the solver is never invoked, no `TimeOfDay` field is
calculated, and the output feature class is never created or appended to. -/
theorem claim_C8_error_before_solve (sdi sti edi eti : String) (err : ScriptError)
    (hpi : processInputs sdi sti edi eti = .error err) (α : Type)
    (solver : Int → α) (inc : Int) (fuel : Nat) :
    runScript solver sdi sti edi eti inc fuel = some (errorOutcome α err) ∧
    (errorOutcome α err).errors = [err] ∧
    (errorOutcome α err).solves = [] ∧
    (errorOutcome α err).calcs = [] ∧
    (errorOutcome α err).output = none ∧
    (errorOutcome α err).writes = [] :=
  ⟨runScript_of_error solver sdi sti edi eti inc fuel err hpi, rfl, rfl, rfl, rfl, rfl⟩

theorem claim_C8_witness :
    runScript (fun t => (t : Int)) "Monday" "09:00" "Monday" "08:00" 5 3 =
        some (errorOutcome Int .endBeforeStart) ∧
      (errorOutcome Int ScriptError.endBeforeStart).errors = [.endBeforeStart] ∧
      (errorOutcome Int ScriptError.endBeforeStart).solves = [] ∧
      (errorOutcome Int ScriptError.endBeforeStart).calcs = [] ∧
      (errorOutcome Int ScriptError.endBeforeStart).output = none ∧
      (errorOutcome Int ScriptError.endBeforeStart).writes = [] := by
  have hpi : processInputs "Monday" "09:00" "Monday" "08:00" =
      .error .endBeforeStart := rfl
  exact claim_C8_error_before_solve "Monday" "09:00" "Monday" "08:00"
    .endBeforeStart hpi Int (fun t => t) 5 3

/-- Running the script when validation succeeds and the enumeration loop
exits with list `tl`: the outcome is exactly the solve loop's effects from
the initial state (no pre-existing output feature class). -/
theorem runScript_of_ok {α : Type} (solver : Int → α) (sdi sti edi eti : String)
    (inc : Int) (fuel : Nat) (s e : Int) (tl : List Int)
    (hok : processInputs sdi sti edi eti = .ok (s, e))
    (hiter : loopIter e inc fuel s [] = some tl) :
    runScript solver sdi sti edi eti inc fuel =
      some ⟨[], (runSolveLoop solver tl (initState α)).solves,
        (runSolveLoop solver tl (initState α)).calcs,
        (runSolveLoop solver tl (initState α)).output,
        (runSolveLoop solver tl (initState α)).writes⟩ := by
  simp [runScript, hok, hiter]

/-- C9: for every valid configuration (validated window, positive increment,
output feature class initially absent), the main loop performs exactly one
solve per instant of the time list in ascending order, calculates the
`TimeOfDay` field once per solve, stamps each exported result set with the
instant of its solve, creates the output feature class on the first solve
and appends on every later one, accumulating all result sets. -/
theorem claim_C9_solve_loop (sdi sti edi eti : String) (s e inc : Int)
    (hok : processInputs sdi sti edi eti = .ok (s, e)) (hinc : 0 < inc)
    (α : Type) (solver : Int → α) :
    runScript solver sdi sti edi eti inc ((timelist s e inc).length + 1) =
      some ⟨[], timelist s e inc, timelist s e inc,
        some ((timelist s e inc).map (fun t => (t, solver t))),
        WriteOp.copy ::
          List.replicate ((timelist s e inc).length - 1) WriteOp.append⟩ ∧
    (timelist s e inc).Pairwise (· < ·) := by
  have hlt : s < e := processInputs_ok_lt sdi sti edi eti s e hok
  have hle : s ≤ e := le_of_lt hlt
  refine ⟨?_, timelistFrom_pairwise e inc s⟩
  have hiter : loopIter e inc ((timelistFrom e inc s).length + 1) s [] =
      some (timelistFrom e inc s) := by
    simpa using loopIter_timelist e inc hinc s []
  have hrs := runScript_of_ok solver sdi sti edi eti inc
    ((timelistFrom e inc s).length + 1) s e (timelistFrom e inc s) hok hiter
  simp only [timelist]
  rw [hrs]
  rcases htl : timelistFrom e inc s with _ | ⟨t0, rest⟩
  · exfalso
    rw [timelistFrom_cons e inc s hinc hle] at htl
    cases htl
  · rw [runSolveLoop_solves, runSolveLoop_calcs,
      runSolveLoop_output solver (t0 :: rest) (by simp),
      runSolveLoop_writes_none solver t0 rest (initState α) rfl]
    simp [initState]

theorem claim_C9_witness :
    runScript (fun t => (t : Int)) "Monday" "08:00" "Monday" "09:00" 30 4 =
      some ⟨[], [-36816000, -36815970, -36815940],
        [-36816000, -36815970, -36815940],
        some [(-36816000, -36816000), (-36815970, -36815970),
          (-36815940, -36815940)],
        [WriteOp.copy, WriteOp.append, WriteOp.append]⟩ := by
  have hpi : processInputs "Monday" "08:00" "Monday" "09:00" =
      .ok (-36816000, -36815940) := rfl
  have htl : timelist (-36816000) (-36815940) 30 =
      [-36816000, -36815970, -36815940] := by
    rw [timelist, timelistFrom_cons _ _ _ (by norm_num) (by norm_num),
      timelistFrom_cons _ _ _ (by norm_num) (by norm_num),
      timelistFrom_cons _ _ _ (by norm_num) (by norm_num),
      timelistFrom_of_gt _ _ _ (by norm_num)]
    norm_num
  obtain ⟨h1, _⟩ := claim_C9_solve_loop "Monday" "08:00" "Monday" "09:00"
    (-36816000) (-36815940) 30 hpi (by norm_num) Int (fun t => t)
  rw [htl] at h1
  simpa using h1

/-- C10: a strictly negative increment is not rejected by any validation
check: the run still reaches the enumeration loop, and for every validated
window the loop never exits, so no amount of fuel makes the script
terminate. -/
theorem claim_C10_negative_increment_hangs (sdi sti edi eti : String)
    (s e inc : Int) (hok : processInputs sdi sti edi eti = .ok (s, e))
    (hneg : inc < 0) (α : Type) (solver : Int → α) (fuel : Nat) :
    runScript solver sdi sti edi eti inc fuel = none := by
  have hlt : s < e := processInputs_ok_lt sdi sti edi eti s e hok
  have hiter : loopIter e inc fuel s [] = none :=
    loopIter_none_of_nonpos e inc (by omega) fuel s (by omega) []
  simp [runScript, hok, hiter]

theorem claim_C10_witness :
    runScript (fun t => (t : Int)) "Monday" "08:00" "Monday" "09:00" (-1) 7 =
      none := by
  have hpi : processInputs "Monday" "08:00" "Monday" "09:00" =
      .ok (-36816000, -36815940) := rfl
  exact claim_C10_negative_increment_hangs "Monday" "08:00" "Monday" "09:00"
    (-36816000) (-36815940) (-1) hpi (by norm_num) Int (fun t => t) 7

end CreateTimeLapsePolygons
